import Mathlib

/-!
Verification of the OrganizeX duplicate-detection and file-organization
logic. The embedding covers the UI-side functions found in the repository
(DuplicateDetector.js, FileOrganizer.js, the API service) and the backend
engine components that exist only as spec contracts (Classifier,
Fingerprinter, Duplicate Grouper, Reorganization Planner, Executor); the
latter are modelled from the spec, as marked on each definition.
-/

namespace OrganizeX

/-- A scanned file snapshot (spec section 3, FileRecord): path is the unique
key within a scan, size in bytes, modifiedTime as an ordered stamp,
extension, and the content hash the Fingerprinter computes for it. -/
structure FileRecord where
  path : String
  size : Nat
  modifiedTime : Nat
  extension : String
  contentHash : String
deriving DecidableEq

/-- Canonical ordering of duplicate-group members, from the Duplicate Grouper
contract (spec 4.4): earliest modifiedTime first; ties broken by shortest
path, then lexical path order. -/
def fileLE (a b : FileRecord) : Bool :=
  if a.modifiedTime < b.modifiedTime then true
  else if b.modifiedTime < a.modifiedTime then false
  else if a.path.length < b.path.length then true
  else if b.path.length < a.path.length then false
  else decide (a.path ≤ b.path)

/-- Insertion step of the sort used to order each duplicate group. -/
def insertBy {α : Type} (le : α → α → Bool) (x : α) : List α → List α
  | [] => [x]
  | y :: ys => if le x y then x :: y :: ys else y :: insertBy le x ys

/-- Insertion sort by a boolean comparison. -/
def sortBy {α : Type} (le : α → α → Bool) : List α → List α
  | [] => []
  | x :: xs => insertBy le x (sortBy le xs)

/-- Grouping of a list by a key: one bucket per distinct key, each bucket
holding the elements carrying that key, in input order. -/
def groupsBy {α κ : Type} [DecidableEq κ] (key : α → κ) (l : List α) :
    List (List α) :=
  ((l.map key).dedup).map (fun k => l.filter (fun f => decide (key f = k)))

/-- Modelled from the spec: the backend duplicate engine (Content
Fingerprinter 4.3 and Duplicate Grouper 4.4) is absent from the repository
source, which holds only its UI caller. Stage one groups records by exact
byte size and discards size-unique records; stage two splits each size class
by content hash and keeps only classes with at least two members; each
resulting group is ordered by the canonical ordering, so its first element
is the canonical member. -/
def findDuplicates (fs : List FileRecord) : List (List FileRecord) :=
  ((((groupsBy (fun f => f.size) fs).filter (fun g => 2 ≤ g.length)).map
      (fun g => (groupsBy (fun f => f.contentHash) g).filter
        (fun h => 2 ≤ h.length))).flatten).map (sortBy fileLE)

/-- A file entry of a duplicate group as the DuplicateDetector component
receives it from the backend. -/
structure DupFile where
  id : String
  path : String
  size : Nat
  modified : Nat
deriving DecidableEq

/-- A duplicate group as held in the DuplicateDetector component state. -/
structure DupGroup where
  id : String
  name : String
  files : List DupFile
deriving DecidableEq

/-- The duplicates-state update performed by deleteDuplicates
(DuplicateDetector.js lines 64 to 69): each group keeps only the files whose
path was not deleted, and groups left with at most one file are dropped. -/
def removeDeletedGroups (filesToDelete : List DupFile) (prev : List DupGroup) :
    List DupGroup :=
  let keepFile := fun f : DupFile =>
    !(filesToDelete.any (fun del => decide (del.path = f.path)))
  let kept := fun d : DupGroup => { d with files := d.files.filter keepFile }
  (prev.map kept).filter (fun d => 1 < d.files.length)

/-- getTotalWastedSpace (DuplicateDetector.js lines 86 to 91): left fold over
the groups, adding for each group the summed sizes of all files after the
first one. -/
def getTotalWastedSpace (duplicates : List DupGroup) : Nat :=
  duplicates.foldl
    (fun total d => total + (d.files.drop 1).foldl (fun s f => s + f.size) 0) 0

/-- formatFileSize unit table (DuplicateDetector.js line 81). -/
def sizes : List String := ["Bytes", "KB", "MB", "GB"]

/-- Exact decimal rendering of a nonnegative rational rounded to two places
with trailing zeros stripped, embedding toFixed(2) followed by parseFloat. -/
def ratToFixed2Stripped (q : ℚ) : String :=
  let n := (round (q * 100) : ℤ).toNat
  let ip := n / 100
  let fr := n % 100
  if fr = 0 then toString ip
  else if fr % 10 = 0 then toString ip ++ (".") ++ toString (fr / 10)
  else (toString ip ++ (".") ++ (if fr < 10 then ("0") else ("")) ++ toString fr)

/-- formatFileSize (DuplicateDetector.js lines 78 to 84). The floating index
Math.floor(Math.log bytes / Math.log 1024) is embedded as its exact value
Nat.log 1024 bytes, and the mantissa as the exact rational
bytes / 1024 ^ index; the result is none exactly when the computed index
falls outside the sizes array, where the JS string would carry an undefined
unit. -/
def formatFileSize (bytes : Nat) : Option String :=
  if bytes = 0 then some ("0 Bytes")
  else
    let i := Nat.log 1024 bytes
    (sizes.get? i).map
      (fun u => ratToFixed2Stripped ((bytes : ℚ) / (1024 : ℚ) ^ i) ++ " " ++ u)

/-- The fixed category table of FileOrganizer.js (lines 8 to 18), in source
order. -/
def fileTypes : List (String × List String) :=
  [("Images", [".jpg", ".jpeg", ".png", ".gif", ".bmp", ".svg", ".webp"]),
   ("Documents", [".pdf", ".doc", ".docx", ".txt", ".rtf", ".odt"]),
   ("Spreadsheets", [".xls", ".xlsx", ".csv", ".ods"]),
   ("Presentations", [".ppt", ".pptx", ".odp"]),
   ("Videos", [".mp4", ".avi", ".mkv", ".mov", ".wmv", ".flv"]),
   ("Audio", [".mp3", ".wav", ".flac", ".aac", ".ogg"]),
   ("Archives", [".zip", ".rar", ".7z", ".tar", ".gz"]),
   ("Code", [".js", ".py", ".html", ".css", ".java", ".cpp", ".c"]),
   ("Executables", [".exe", ".msi", ".dmg", ".pkg", ".deb", ".rpm"])]

/-- JS String.split with a one-character separator, on character lists: the
empty string yields one empty part, and every separator occurrence opens a
new part. -/
def jsSplit (sep : Char) : List Char → List (List Char)
  | [] => [[]]
  | c :: rest =>
    if c = sep then [] :: jsSplit sep rest
    else
      match jsSplit sep rest with
      | [] => [[c]]
      | p :: ps => (c :: p) :: ps

/-- ASCII lowering of one character, embedding the case folding used for
extension lookup on the ASCII extensions the table holds. -/
def charLower (c : Char) : Char :=
  if 65 ≤ c.toNat ∧ c.toNat ≤ 90 then Char.ofNat (c.toNat + 32) else c

/-- Normalization of an extension for table lookup: lowercase, leading dot
added when missing (spec 4.2: case-insensitive, leading dot optional). -/
def normalizeExt (ext : String) : String :=
  let e := String.mk (ext.data.map charLower)
  match e.data with
  | '.' :: _ => e
  | _ => ("." ++ e)

/-- Modelled from the spec: the Classifier (4.2) is backend code absent from
the repository source; classification is extension lookup against the fixed
table, and an extension matching no table entry maps to the category
Other. -/
def classify (ext : String) : String :=
  match fileTypes.find? (fun e => decide (normalizeExt ext ∈ e.2)) with
  | some e => e.1
  | none => ("Other")

/-- Action of one planned item (spec section 3, ReorganizationPlan). -/
inductive PlanAction
  | move (dest : String)
  | skipCollision
  | skipDisabledCategory
deriving DecidableEq

/-- One entry of a ReorganizationPlan. -/
structure PlannedMove where
  source : String
  action : PlanAction
deriving DecidableEq

/-- Basename of a path: the component after the last slash. -/
def basename (p : String) : String :=
  String.mk ((jsSplit '/' p.data).getLastD p.data)

/-- Split of a destination name into stem and extension at the last dot; the
dot stays with the extension, a dotless name has an empty extension. -/
def splitExt (s : String) : String × String :=
  let cs := s.toList
  if '.' ∈ cs then
    let i := cs.length - 1 - List.indexOf '.' cs.reverse
    (String.mk (cs.take i), String.mk (cs.drop i))
  else (s, (""))

/-- The k-th candidate destination name: the plain name for k = 0, the name
with numeric suffix k before the extension otherwise. -/
def candidateName (stem ext : String) (k : Nat) : String :=
  if k = 0 then stem ++ ext else (stem ++ "_" ++ toString k ++ ext)

/-- Bounded search for a free candidate name, incrementing the suffix while
the candidate collides with an existing destination. -/
def searchFree (existing : List String) (stem ext : String) :
    Nat → Nat → Option String
  | _, 0 => none
  | k, fuel + 1 =>
    let c := candidateName stem ext k
    if c ∈ existing then searchFree existing stem ext (k + 1) fuel
    else some c

/-- Cap on disambiguation attempts (spec 4.5). -/
def collisionCap : Nat := 10000

/-- Modelled from the spec: the Reorganization Planner (4.5) is backend code
absent from the repository source. A file of a disabled category, or one
already at its destination, yields a skip entry; a fresh destination yields a
move; a colliding destination is disambiguated by numeric suffix up to the
cap, and exhaustion yields skip-collision, never an overwrite. -/
def planFile (root : String) (rules : List (String × Bool))
    (existing : List String) (f : FileRecord) : PlannedMove :=
  let category := classify f.extension
  if (rules.lookup category).getD false = false then
    { source := f.path, action := .skipDisabledCategory }
  else
    let dest := root ++ ("/") ++ category ++ ("/") ++ basename f.path
    if dest = f.path then { source := f.path, action := .skipDisabledCategory }
    else if dest ∈ existing then
      match searchFree existing (splitExt dest).1 (splitExt dest).2 1 collisionCap with
      | some d => { source := f.path, action := .move d }
      | none => { source := f.path, action := .skipCollision }
    else { source := f.path, action := .move dest }

/-- Modelled from the spec: planOrganization (section 6) computes the plan
for every scanned file against the snapshot of existing destination paths,
touching nothing. -/
def planOrganization (root : String) (rules : List (String × Bool))
    (files : List FileRecord) (existing : List String) : List PlannedMove :=
  files.map (planFile root rules existing)

/-- planOrganization with the filesystem snapshot threaded through
explicitly, exposing that planning leaves the filesystem untouched. -/
def planOrganizationRun (root : String) (rules : List (String × Bool))
    (files : List FileRecord) (existing : List String) :
    List PlannedMove × List String :=
  (planOrganization root rules files existing, existing)

/-- Outcome summary of an executor operation (spec section 3,
ExecutionResult). -/
structure ExecutionResult where
  processed : Nat
  succeeded : Nat
  skipped : Nat
  failed : Nat
  bytesFreed : Nat
deriving DecidableEq

/-- Modelled from the spec: the Executor deleteFiles operation (4.6, section
6) is backend code absent from the repository source. Against a filesystem
snapshot it removes every record whose path is listed, reports the summed
sizes of the removed records as bytesFreed, and reports unlisted paths as
no-ops. -/
def deleteFiles (paths : List String) (fs : List FileRecord) :
    ExecutionResult × List FileRecord :=
  let deleted := fs.filter (fun f => decide (f.path ∈ paths))
  let remaining := fs.filter (fun f => !(decide (f.path ∈ paths)))
  ({ processed := paths.length,
     succeeded := deleted.length,
     skipped := paths.length - deleted.length,
     failed := 0,
     bytesFreed := (deleted.map (fun f => f.size)).sum }, remaining)

/-- The selection key built by toggleDuplicateSelection
(DuplicateDetector.js line 32): duplicateId, a hyphen, fileId. -/
def encodeKey (duplicateId fileId : List Char) : List Char :=
  duplicateId ++ '-' :: fileId

/-- The decoding in deleteDuplicates (DuplicateDetector.js line 46): split
the key on hyphens and take the first two parts. -/
def decodeKey (key : List Char) : Option (List Char × List Char) :=
  match jsSplit '-' key with
  | d :: f :: _ => some (d, f)
  | _ => none

/-- The user record shape used by the API service defaults. -/
structure UserData where
  level : Nat
  xp : Nat
  totalXp : Nat
  streak : Nat
  badges : List String
  completedQuests : Nat
deriving DecidableEq

/-- Outcome of the underlying fetch call: an HTTP response with a status and
parsed body, or a network-level failure. -/
inductive FetchOutcome (α : Type)
  | success (status : Nat) (body : α)
  | failure (message : String)

/-- APIService.request (part_003 lines 5 to 30): a network failure is caught,
logged and rethrown; a response outside the ok range throws an HTTP error;
an ok response yields its parsed body. -/
def request {α : Type} (o : FetchOutcome α) : Except String α :=
  match o with
  | .success status body =>
    if 200 ≤ status ∧ status < 300 then .ok body
    else .error ("HTTP error! status: " ++ toString status)
  | .failure m => .error m

/-- The default user object returned by getUserData on failure (part_003
lines 38 to 45). -/
def defaultUserData : UserData :=
  { level := 1, xp := 0, totalXp := 0, streak := 0, badges := [],
    completedQuests := 0 }

/-- APIService.getUserData (part_003 lines 33 to 47): the request result on
success, the fixed default user object on any failure. -/
def getUserData (o : FetchOutcome UserData) : Except String UserData :=
  match request o with
  | .ok u => .ok u
  | .error _ => .ok defaultUserData

/-- Sample record: size 100, stamp 5, lexically small but long path. -/
def cexA : FileRecord :=
  { path := "ab", size := 100, modifiedTime := 5, extension := ".txt",
    contentHash := "h" }

/-- Sample record: same size, hash and stamp as cexA, with a lexically larger
but shorter path. -/
def cexB : FileRecord :=
  { path := "z", size := 100, modifiedTime := 5, extension := ".txt",
    contentHash := "h" }

/-- Sample canonical record of a concrete duplicate group. -/
def wRecC : FileRecord :=
  { path := "c", size := 100, modifiedTime := 1, extension := ".txt",
    contentHash := "h" }

/-- Sample non-canonical duplicate record. -/
def wRecD : FileRecord :=
  { path := "d", size := 40, modifiedTime := 2, extension := ".txt",
    contentHash := "h" }

/-- Sample non-canonical duplicate record. -/
def wRecE : FileRecord :=
  { path := "e", size := 60, modifiedTime := 3, extension := ".txt",
    contentHash := "h" }

/-- Sample duplicate-group file entries for the component-state theorems. -/
def wDupA : DupFile := { id := "f1", path := "p1", size := 100, modified := 0 }

/-- Sample duplicate-group file entry. -/
def wDupB : DupFile := { id := "f2", path := "p2", size := 100, modified := 0 }

/-- Sample duplicate-group file entry. -/
def wDupC : DupFile := { id := "f3", path := "p3", size := 100, modified := 0 }

/-- Sample duplicate group of three files. -/
def wGroup : DupGroup := { id := "1", name := "n", files := [wDupA, wDupB, wDupC] }

/-- Sample file to be planned into the Documents category. -/
def wPlanRec : FileRecord :=
  { path := "d/a.txt", size := 1, modifiedTime := 0, extension := ".txt",
    contentHash := "q" }

/-- Sample backend user payload. -/
def wUser : UserData :=
  { level := 3, xp := 10, totalXp := 20, streak := 2, badges := ["b"],
    completedQuests := 1 }

theorem mem_insertBy {α : Type} (le : α → α → Bool) (x : α) (l : List α)
    (a : α) : a ∈ insertBy le x l ↔ a = x ∨ a ∈ l := by
  induction l with
  | nil => simp [insertBy]
  | cons y ys ih =>
    rw [insertBy]
    by_cases h : le x y = true
    · rw [if_pos h]
      simp only [List.mem_cons]
    · rw [if_neg h]
      simp only [List.mem_cons, ih]
      tauto

theorem length_insertBy {α : Type} (le : α → α → Bool) (x : α) (l : List α) :
    (insertBy le x l).length = l.length + 1 := by
  induction l with
  | nil => simp [insertBy]
  | cons y ys ih =>
    rw [insertBy]
    by_cases h : le x y = true
    · rw [if_pos h]
      simp
    · rw [if_neg h]
      simp [ih]

theorem pairwise_insertBy {α : Type} (le : α → α → Bool)
    (hT : ∀ a b, le a b = true ∨ le b a = true)
    (hTr : ∀ a b c, le a b = true → le b c = true → le a c = true)
    (x : α) (l : List α) (h : l.Pairwise (fun a b => le a b = true)) :
    (insertBy le x l).Pairwise (fun a b => le a b = true) := by
  induction l with
  | nil => simp [insertBy]
  | cons y ys ih =>
    rw [List.pairwise_cons] at h
    obtain ⟨hy, hys⟩ := h
    rw [insertBy]
    by_cases hxy : le x y = true
    · rw [if_pos hxy]
      refine List.Pairwise.cons ?_ (List.Pairwise.cons hy hys)
      intro z hz
      rcases List.mem_cons.1 hz with rfl | hz
      · exact hxy
      · exact hTr x y z hxy (hy z hz)
    · rw [if_neg hxy]
      have hyx : le y x = true := (hT x y).resolve_left hxy
      refine List.Pairwise.cons ?_ (ih hys)
      intro z hz
      rcases (mem_insertBy le x ys z).1 hz with rfl | hz
      · exact hyx
      · exact hy z hz

theorem mem_sortBy {α : Type} (le : α → α → Bool) (l : List α) (a : α) :
    a ∈ sortBy le l ↔ a ∈ l := by
  induction l with
  | nil => simp [sortBy]
  | cons x xs ih =>
    rw [sortBy, mem_insertBy]
    simp [ih]

theorem length_sortBy {α : Type} (le : α → α → Bool) (l : List α) :
    (sortBy le l).length = l.length := by
  induction l with
  | nil => simp [sortBy]
  | cons x xs ih =>
    rw [sortBy, length_insertBy, ih, List.length_cons]

theorem pairwise_sortBy {α : Type} (le : α → α → Bool)
    (hT : ∀ a b, le a b = true ∨ le b a = true)
    (hTr : ∀ a b c, le a b = true → le b c = true → le a c = true)
    (l : List α) : (sortBy le l).Pairwise (fun a b => le a b = true) := by
  induction l with
  | nil => simp [sortBy]
  | cons x xs ih => exact pairwise_insertBy le hT hTr x _ ih

theorem fileLE_iff (a b : FileRecord) :
    fileLE a b = true ↔
      (a.modifiedTime < b.modifiedTime ∨
        (a.modifiedTime = b.modifiedTime ∧
          (a.path.length < b.path.length ∨
            (a.path.length = b.path.length ∧ a.path ≤ b.path)))) := by
  unfold fileLE
  split_ifs with h1 h2 h3 h4
  · simp only [true_iff]
    exact Or.inl h1
  · simp only [false_iff]
    rintro (h | ⟨h, -⟩) <;> omega
  · simp only [true_iff]
    exact Or.inr ⟨by omega, Or.inl h3⟩
  · simp only [false_iff]
    rintro (h | ⟨h, h' | ⟨h', -⟩⟩) <;> omega
  · simp only [decide_eq_true_eq]
    constructor
    · intro hle
      exact Or.inr ⟨by omega, Or.inr ⟨by omega, hle⟩⟩
    · rintro (h | ⟨h, h' | ⟨h', hle⟩⟩)
      · omega
      · omega
      · exact hle

theorem fileLE_total (a b : FileRecord) :
    fileLE a b = true ∨ fileLE b a = true := by
  rw [fileLE_iff, fileLE_iff]
  rcases Nat.lt_trichotomy a.modifiedTime b.modifiedTime with h | h | h
  · exact Or.inl (Or.inl h)
  · rcases Nat.lt_trichotomy a.path.length b.path.length with h' | h' | h'
    · exact Or.inl (Or.inr ⟨h, Or.inl h'⟩)
    · rcases le_total a.path b.path with h'' | h''
      · exact Or.inl (Or.inr ⟨h, Or.inr ⟨h', h''⟩⟩)
      · exact Or.inr (Or.inr ⟨h.symm, Or.inr ⟨h'.symm, h''⟩⟩)
    · exact Or.inr (Or.inr ⟨h.symm, Or.inl h'⟩)
  · exact Or.inr (Or.inl h)

theorem fileLE_trans (a b c : FileRecord) (hab : fileLE a b = true)
    (hbc : fileLE b c = true) : fileLE a c = true := by
  rw [fileLE_iff] at hab hbc ⊢
  rcases hab with h1 | ⟨h1, r1⟩
  · rcases hbc with h2 | ⟨h2, -⟩ <;> exact Or.inl (by omega)
  · rcases hbc with h2 | ⟨h2, r2⟩
    · exact Or.inl (by omega)
    · refine Or.inr ⟨by omega, ?_⟩
      rcases r1 with l1 | ⟨l1, p1⟩
      · rcases r2 with l2 | ⟨l2, -⟩ <;> exact Or.inl (by omega)
      · rcases r2 with l2 | ⟨l2, p2⟩
        · exact Or.inl (by omega)
        · exact Or.inr ⟨by omega, le_trans p1 p2⟩

theorem mem_groupsBy {α κ : Type} [DecidableEq κ] (key : α → κ) (l : List α)
    (g : List α) (hg : g ∈ groupsBy key l) :
    ∃ k, g = l.filter (fun f => decide (key f = k)) := by
  simp only [groupsBy, List.mem_map] at hg
  obtain ⟨k, -, rfl⟩ := hg
  exact ⟨k, rfl⟩

theorem findDuplicates_shape (fs : List FileRecord) (g : List FileRecord)
    (hg : g ∈ findDuplicates fs) :
    ∃ g0, g = sortBy fileLE g0 ∧ 2 ≤ g0.length ∧ ∃ s, ∀ f ∈ g0, f.size = s := by
  simp only [findDuplicates, List.mem_map, List.mem_flatten,
    List.mem_filter] at hg
  obtain ⟨g0, ⟨L, ⟨⟨sg, ⟨hsg, -⟩, rfl⟩, hg0L⟩⟩, rfl⟩ := hg
  rw [List.mem_filter] at hg0L
  obtain ⟨hg0m, hg0len⟩ := hg0L
  refine ⟨g0, rfl, by simpa using hg0len, ?_⟩
  obtain ⟨s, rfl⟩ := mem_groupsBy (fun f => f.size) fs sg hsg
  obtain ⟨k, rfl⟩ := mem_groupsBy (fun f => f.contentHash) _ g0 hg0m
  refine ⟨s, ?_⟩
  intro f hf
  have hf' := List.mem_filter.1 hf
  have hf'' := List.mem_filter.1 hf'.1
  simpa using hf''.2

/-- C2: findDuplicates never places two files of different sizes in the same
duplicate group; all members of any returned group have identical size. -/
theorem findDuplicates_size_eq (fs : List FileRecord) (g : List FileRecord)
    (hg : g ∈ findDuplicates fs) (f1 f2 : FileRecord) (h1 : f1 ∈ g)
    (h2 : f2 ∈ g) : f1.size = f2.size := by
  obtain ⟨g0, rfl, -, s, hs⟩ := findDuplicates_shape fs g hg
  rw [mem_sortBy] at h1 h2
  rw [hs f1 h1, hs f2 h2]

/-- Witness for C2 on a concrete scan of two equal-sized records. -/
theorem findDuplicates_size_eq_wit :
    [cexB, cexA] ∈ findDuplicates [cexA, cexB] ∧ cexB.size = cexA.size :=
  ⟨by decide,
   findDuplicates_size_eq [cexA, cexB] [cexB, cexA] (by decide) cexB cexA
     (by decide) (by decide)⟩

/-- C1 counterexample: on two records with equal modifiedTime the canonical
(first) member of the produced group is the one with the shorter path, not
the lexically smallest path; cexA is lexically smaller yet placed second. -/
theorem canonical_lexical_tie_cex :
    findDuplicates [cexA, cexB] = [[cexB, cexA]] ∧
    cexA.modifiedTime = cexB.modifiedTime ∧ cexA.path < cexB.path :=
  ⟨by decide, rfl, String.lt_iff_toList_lt.2 (by decide)⟩

/-- C1 (amended): the canonical member, the first element of every group
produced by findDuplicates, has the earliest modifiedTime of all members of
the group, with ties broken by shortest path and then lexical path order. -/
theorem canonical_first_min (fs : List FileRecord) (g : List FileRecord)
    (hg : g ∈ findDuplicates fs) :
    ∃ c rest, g = c :: rest ∧ ∀ f ∈ rest,
      c.modifiedTime < f.modifiedTime ∨
        (c.modifiedTime = f.modifiedTime ∧
          (c.path.length < f.path.length ∨
            (c.path.length = f.path.length ∧ c.path ≤ f.path))) := by
  obtain ⟨g0, rfl, hlen, -⟩ := findDuplicates_shape fs g hg
  have hp := pairwise_sortBy fileLE fileLE_total fileLE_trans g0
  have hl := length_sortBy fileLE g0
  rcases hsort : sortBy fileLE g0 with _ | ⟨c, rest⟩
  · rw [hsort] at hl
    simp at hl
    omega
  · refine ⟨c, rest, rfl, ?_⟩
    intro f hf
    rw [hsort, List.pairwise_cons] at hp
    exact (fileLE_iff c f).1 (hp.1 f hf)

/-- Witness for the amended C1 on a concrete scan. -/
theorem canonical_first_min_wit :
    [cexB, cexA] ∈ findDuplicates [cexA, cexB] ∧
    ∃ c rest, ([cexB, cexA] : List FileRecord) = c :: rest ∧ ∀ f ∈ rest,
      c.modifiedTime < f.modifiedTime ∨
        (c.modifiedTime = f.modifiedTime ∧
          (c.path.length < f.path.length ∨
            (c.path.length = f.path.length ∧ c.path ≤ f.path))) :=
  ⟨by decide, canonical_first_min [cexA, cexB] [cexB, cexA] (by decide)⟩

/-- C4: every duplicate group produced by findDuplicates has at least two
members, and the deleteDuplicates state update preserves the invariant by
dropping any group left with fewer than two files. -/
theorem dup_groups_ge_two :
    (∀ fs g, g ∈ findDuplicates fs → 2 ≤ g.length) ∧
    (∀ td prev g, g ∈ removeDeletedGroups td prev → 2 ≤ g.files.length) := by
  constructor
  · intro fs g hg
    obtain ⟨g0, rfl, hlen, -⟩ := findDuplicates_shape fs g hg
    rw [length_sortBy]
    exact hlen
  · intro td prev g hg
    simp only [removeDeletedGroups, List.mem_filter] at hg
    have h2 := hg.2
    simp only [decide_eq_true_eq] at h2
    omega

/-- Witness for C4: a concrete deletion that shrinks a group of three to two
keeps the group, and a concrete scan group has two members. -/
theorem dup_groups_ge_two_wit :
    2 ≤ ([cexB, cexA] : List FileRecord).length ∧
    2 ≤ ({ wGroup with files := [wDupA, wDupC] } : DupGroup).files.length :=
  ⟨dup_groups_ge_two.1 [cexA, cexB] [cexB, cexA] (by decide),
   dup_groups_ge_two.2 [wDupB] [wGroup] { wGroup with files := [wDupA, wDupC] }
     (by decide)⟩

theorem foldl_size_sum (l : List DupFile) (a : Nat) :
    l.foldl (fun s f => s + f.size) a = a + (l.map (fun f => f.size)).sum := by
  induction l generalizing a with
  | nil => simp
  | cons x xs ih =>
    rw [List.foldl_cons, ih, List.map_cons, List.sum_cons]
    omega

theorem wasted_foldl (ds : List DupGroup) (a : Nat) :
    ds.foldl
      (fun total d => total + (d.files.drop 1).foldl (fun s f => s + f.size) 0)
      a =
    a + (ds.map (fun d => ((d.files.drop 1).map (fun f => f.size)).sum)).sum := by
  induction ds generalizing a with
  | nil => simp
  | cons d ds ih =>
    rw [List.foldl_cons, ih, List.map_cons, List.sum_cons, foldl_size_sum]
    omega

theorem path_inj (fs : List FileRecord)
    (hfs : (fs.map (fun f => f.path)).Nodup) (x y : FileRecord) (hx : x ∈ fs)
    (hy : y ∈ fs) (hxy : x.path = y.path) : x = y :=
  List.inj_on_of_nodup_map hfs hx hy hxy

/-- C5: getTotalWastedSpace sums the sizes of every member after the first
of each group, and deleting the non-canonical members of a duplicate group
frees exactly the sum of their sizes while the canonical member remains in
the filesystem. -/
theorem wasted_space_noncanonical :
    (∀ ds : List DupGroup, getTotalWastedSpace ds =
       (ds.map (fun d => ((d.files.drop 1).map (fun f => f.size)).sum)).sum) ∧
    (∀ (fs : List FileRecord) (c : FileRecord) (rest : List FileRecord),
       (fs.map (fun f => f.path)).Nodup →
       (∀ f ∈ c :: rest, f ∈ fs) →
       ((c :: rest).map (fun f => f.path)).Nodup →
       (deleteFiles (rest.map (fun f => f.path)) fs).1.bytesFreed =
           (rest.map (fun f => f.size)).sum ∧
         c ∈ (deleteFiles (rest.map (fun f => f.path)) fs).2) := by
  constructor
  · intro ds
    have h := wasted_foldl ds 0
    rw [Nat.zero_add] at h
    exact h
  · intro fs c rest hfs hmem hgp
    have hfsn : fs.Nodup := hfs.of_map
    have hrn : rest.Nodup := by
      rw [List.map_cons, List.nodup_cons] at hgp
      exact hgp.2.of_map
    have hcp : c.path ∉ rest.map (fun f => f.path) := by
      rw [List.map_cons, List.nodup_cons] at hgp
      exact hgp.1
    have hext : ∀ x,
        x ∈ fs.filter (fun f => decide (f.path ∈ rest.map (fun f => f.path)))
          ↔ x ∈ rest := by
      intro x
      rw [List.mem_filter]
      constructor
      · rintro ⟨hxfs, hxp⟩
        rw [decide_eq_true_eq, List.mem_map] at hxp
        obtain ⟨r, hr, hrp⟩ := hxp
        have : x = r :=
          path_inj fs hfs x r hxfs (hmem r (List.mem_cons_of_mem c hr)) hrp.symm
        rw [this]
        exact hr
      · intro hx
        refine ⟨hmem x (List.mem_cons_of_mem c hx), ?_⟩
        rw [decide_eq_true_eq, List.mem_map]
        exact ⟨x, hx, rfl⟩
    have hperm :
        List.Perm
          (fs.filter (fun f => decide (f.path ∈ rest.map (fun f => f.path))))
          rest :=
      (List.perm_ext_iff_of_nodup (hfsn.filter _) hrn).2 hext
    constructor
    · simp only [deleteFiles]
      exact (hperm.map (fun f => f.size)).sum_eq
    · simp only [deleteFiles, List.mem_filter]
      refine ⟨hmem c (List.mem_cons_self c rest), ?_⟩
      simp only [Bool.not_eq_true', decide_eq_false_iff_not]
      exact hcp

/-- Witness for C5: a concrete pair of duplicate groups and a concrete
three-record filesystem where the two non-canonical records are deleted. -/
theorem wasted_space_noncanonical_wit :
    getTotalWastedSpace [wGroup] =
      (([wGroup].map
        (fun d => ((d.files.drop 1).map (fun f => f.size)).sum)).sum) ∧
    (deleteFiles ([wRecD, wRecE].map (fun f => f.path))
        [wRecC, wRecD, wRecE]).1.bytesFreed =
      (([wRecD, wRecE] : List FileRecord).map (fun f => f.size)).sum ∧
    wRecC ∈ (deleteFiles ([wRecD, wRecE].map (fun f => f.path))
        [wRecC, wRecD, wRecE]).2 :=
  ⟨wasted_space_noncanonical.1 [wGroup],
   wasted_space_noncanonical.2 [wRecC, wRecD, wRecE] wRecC [wRecD, wRecE]
     (by decide) (by decide) (by decide)⟩

theorem searchFree_not_mem (existing : List String) (stem ext : String) :
    ∀ fuel k c, searchFree existing stem ext k fuel = some c →
      c ∉ existing := by
  intro fuel
  induction fuel with
  | zero =>
    intro k c h
    simp [searchFree] at h
  | succ n ih =>
    intro k c h
    rw [searchFree] at h
    by_cases hm : candidateName stem ext k ∈ existing
    · rw [if_pos hm] at h
      exact ih (k + 1) c h
    · rw [if_neg hm] at h
      obtain rfl : candidateName stem ext k = c := Option.some.inj h
      exact hm

/-- C3: every move in a plan targets a destination that did not exist in the
snapshot, so planned organization never overwrites an existing file; a
collision is resolved by a disambiguated name or, when the capped suffix
search is exhausted, by a skip-collision entry. -/
theorem plan_never_overwrites (root : String) (rules : List (String × Bool))
    (files : List FileRecord) (existing : List String) (pm : PlannedMove)
    (hpm : pm ∈ planOrganization root rules files existing) (d : String)
    (hd : pm.action = PlanAction.move d) : d ∉ existing := by
  simp only [planOrganization, List.mem_map] at hpm
  obtain ⟨f, -, rfl⟩ := hpm
  simp only [planFile] at hd
  split at hd
  · cases hd
  · split at hd
    · cases hd
    · split at hd
      · split at hd
        · next heq =>
          have hinj := PlanAction.move.inj hd
          rw [← hinj]
          exact searchFree_not_mem existing _ _ collisionCap 1 _ heq
        · cases hd
      · next hni =>
        have hinj := PlanAction.move.inj hd
        rw [← hinj]
        exact hni

/-- Witness for C3: a concrete plan where the destination collides and the
move is disambiguated to a name absent from the snapshot. -/
theorem plan_never_overwrites_wit :
    ({ source := "d/a.txt", action := PlanAction.move ("r/Documents/a_1.txt") }
        : PlannedMove) ∈
      planOrganization ("r") [("Documents", true)] [wPlanRec]
        ["r/Documents/a.txt"] ∧
    ("r/Documents/a_1.txt") ∉ ["r/Documents/a.txt"] :=
  ⟨by decide,
   plan_never_overwrites ("r") [("Documents", true)] [wPlanRec]
     ["r/Documents/a.txt"]
     { source := "d/a.txt", action := PlanAction.move ("r/Documents/a_1.txt") }
     (by decide) ("r/Documents/a_1.txt") rfl⟩

/-- C6 counterexample: the fixed category table of FileOrganizer.js has nine
entries, and Other is not among its category names, so the table does not
consist of the ten categories the claim lists. -/
theorem fileTypes_nine_cex :
    fileTypes.length = 9 ∧ ("Other") ∉ fileTypes.map (fun e => e.1) :=
  ⟨rfl, by decide⟩

/-- C6 (amended): the category table enumerates exactly the nine categories
Images, Documents, Spreadsheets, Presentations, Videos, Audio, Archives,
Code and Executables, each with its frozen extension list, and the
classifier maps any extension matching no table entry to Other. -/
theorem fileTypes_enum_other (ext : String)
    (h : ∀ e ∈ fileTypes, normalizeExt ext ∉ e.2) :
    fileTypes.map (fun e => e.1) =
      ["Images", "Documents", "Spreadsheets", "Presentations", "Videos",
       "Audio", "Archives", "Code", "Executables"] ∧
    classify ext = ("Other") := by
  refine ⟨rfl, ?_⟩
  rw [classify]
  have hn : fileTypes.find? (fun e => decide (normalizeExt ext ∈ e.2)) =
      none := by
    rw [List.find?_eq_none]
    intro e he
    simpa using h e he
  rw [hn]

/-- Witness for the amended C6 at a concrete unknown extension. -/
theorem fileTypes_enum_other_wit :
    (∀ e ∈ fileTypes, normalizeExt (".xyz") ∉ e.2) ∧
    classify (".xyz") = ("Other") :=
  ⟨by decide, (fileTypes_enum_other (".xyz") (by decide)).2⟩

/-- C7: planOrganization is deterministic and idempotent; planning touches
no filesystem state, so planning again on the state left by a first planning
pass yields the identical plan and the identical state. -/
theorem planOrganization_idempotent (root : String)
    (rules : List (String × Bool)) (files : List FileRecord)
    (existing : List String) :
    (planOrganizationRun root rules files
        (planOrganizationRun root rules files existing).2).1 =
      (planOrganizationRun root rules files existing).1 ∧
    (planOrganizationRun root rules files
        (planOrganizationRun root rules files existing).2).2 = existing :=
  ⟨rfl, rfl⟩

theorem jsSplit_no_sep (sep : Char) (l : List Char) (h : sep ∉ l) :
    jsSplit sep l = [l] := by
  induction l with
  | nil => rfl
  | cons c rest ih =>
    rw [List.mem_cons, not_or] at h
    rw [jsSplit, if_neg (fun hc => h.1 hc.symm), ih h.2]

theorem jsSplit_sep_append (sep : Char) (d r : List Char) (h : sep ∉ d) :
    jsSplit sep (d ++ sep :: r) = d :: jsSplit sep r := by
  induction d with
  | nil =>
    rw [List.nil_append, jsSplit, if_pos rfl]
  | cons c dtl ih =>
    rw [List.mem_cons, not_or] at h
    rw [List.cons_append, jsSplit, if_neg (fun hc => h.1 hc.symm), ih h.2]

/-- C8 counterexample: with the hyphen-free group id g and the file id a-b,
encoding and decoding the selection key returns the pair (g, a), not the
original pair, although the duplicateId contains no hyphen as the claim
requires. -/
theorem selection_key_cex :
    ('-' ∉ ['g']) ∧
    decodeKey (encodeKey ['g'] ['a', '-', 'b']) = some (['g'], ['a']) ∧
    (['a'] : List Char) ≠ ['a', '-', 'b'] :=
  ⟨by decide, by decide, by decide⟩

/-- C8 (amended): the selection-key encoding round-trips exactly when both
the duplicateId and the fileId contain no hyphen; splitting the encoded key
on hyphens and taking the first two parts then recovers the original
pair. -/
theorem selection_key_roundtrip (duplicateId fileId : List Char)
    (hd : '-' ∉ duplicateId) (hf : '-' ∉ fileId) :
    decodeKey (encodeKey duplicateId fileId) = some (duplicateId, fileId) := by
  rw [decodeKey, encodeKey, jsSplit_sep_append '-' duplicateId fileId hd,
    jsSplit_no_sep '-' fileId hf]

/-- Witness for the amended C8 on concrete hyphen-free ids. -/
theorem selection_key_roundtrip_wit :
    ('-' ∉ ['g']) ∧ ('-' ∉ ['x', 'y']) ∧
    decodeKey (encodeKey ['g'] ['x', 'y']) = some (['g'], ['x', 'y']) :=
  ⟨by decide, by decide,
   selection_key_roundtrip ['g'] ['x', 'y'] (by decide) (by decide)⟩

/-- C9: getUserData never propagates an error; every network failure and
every non-ok HTTP status yields the fixed default user object, and an ok
response is returned unchanged. -/
theorem getUserData_never_fails (o : FetchOutcome UserData) :
    (∃ u, getUserData o = Except.ok u) ∧
    (∀ m, o = FetchOutcome.failure m →
      getUserData o = Except.ok defaultUserData) ∧
    (∀ status body, o = FetchOutcome.success status body →
      200 ≤ status → status < 300 → getUserData o = Except.ok body) ∧
    (∀ status body, o = FetchOutcome.success status body →
      ¬(200 ≤ status ∧ status < 300) →
      getUserData o = Except.ok defaultUserData) := by
  cases o with
  | success status body =>
    by_cases hok : 200 ≤ status ∧ status < 300
    · refine ⟨⟨body, ?_⟩, ?_, ?_, ?_⟩
      · simp [getUserData, request, if_pos hok]
      · intro m hm
        cases hm
      · intro s b hsb h1 h2
        obtain ⟨rfl, rfl⟩ : status = s ∧ body = b := by
          injection hsb with h h'
          exact ⟨h, h'⟩
        simp [getUserData, request, if_pos hok]
      · intro s b hsb hno
        obtain ⟨rfl, rfl⟩ : status = s ∧ body = b := by
          injection hsb with h h'
          exact ⟨h, h'⟩
        exact absurd hok hno
    · refine ⟨⟨defaultUserData, ?_⟩, ?_, ?_, ?_⟩
      · simp [getUserData, request, if_neg hok]
      · intro m hm
        cases hm
      · intro s b hsb h1 h2
        obtain ⟨rfl, rfl⟩ : status = s ∧ body = b := by
          injection hsb with h h'
          exact ⟨h, h'⟩
        exact absurd ⟨h1, h2⟩ hok
      · intro s b hsb hno
        simp [getUserData, request, if_neg hok]
  | failure m =>
    refine ⟨⟨defaultUserData, ?_⟩, ?_, ?_, ?_⟩
    · simp [getUserData, request]
    · intro m' hm
      simp [getUserData, request]
    · intro s b hsb h1 h2
      cases hsb
    · intro s b hsb hno
      cases hsb

/-- Witness for C9: a concrete network failure yields the default user
object, and a concrete ok response is passed through unchanged. -/
theorem getUserData_never_fails_wit :
    getUserData (FetchOutcome.failure ("boom")) =
      Except.ok defaultUserData ∧
    getUserData (FetchOutcome.success 200 wUser) = Except.ok wUser :=
  ⟨(getUserData_never_fails (FetchOutcome.failure ("boom"))).2.1 ("boom") rfl,
   (getUserData_never_fails (FetchOutcome.success 200 wUser)).2.2.1 200 wUser
     rfl (by decide) (by decide)⟩

/-- C10: formatFileSize returns the string 0 Bytes at zero; for every byte
count from one up to but excluding 1024 to the fourth power the computed
index lies inside the sizes array and the result carries a defined unit; at
or above 1024 to the fourth power the index leaves the array and the unit is
undefined. -/
theorem formatFileSize_unit_bounds :
    formatFileSize 0 = some ("0 Bytes") ∧
    (∀ b, 1 ≤ b → b < 1024 ^ 4 →
      Nat.log 1024 b < sizes.length ∧ (formatFileSize b).isSome = true) ∧
    (∀ b, 1024 ^ 4 ≤ b →
      sizes.length ≤ Nat.log 1024 b ∧ formatFileSize b = none) := by
  refine ⟨rfl, ?_, ?_⟩
  · intro b hb1 hb2
    have hb0 : b ≠ 0 := by omega
    have hlog : Nat.log 1024 b < 4 :=
      (Nat.lt_pow_iff_log_lt (by norm_num) hb0).1 hb2
    constructor
    · simpa [sizes] using hlog
    · have hget :=
        List.getElem?_eq_getElem (l := sizes) (n := Nat.log 1024 b)
          (by simpa [sizes] using hlog)
      simp [formatFileSize, hb0, hget]
  · intro b hb
    have hb0 : b ≠ 0 := by
      have : (0 : Nat) < 1024 ^ 4 := by norm_num
      omega
    have hlog : 4 ≤ Nat.log 1024 b :=
      (Nat.pow_le_iff_le_log (by norm_num) hb0).1 hb
    constructor
    · simpa [sizes] using hlog
    · simp [formatFileSize, hb0]
      simpa [sizes] using hlog

/-- Witness for C10 at five bytes and at exactly one TiB. -/
theorem formatFileSize_unit_bounds_wit :
    (1 ≤ 5 ∧ 5 < 1024 ^ 4 ∧
      Nat.log 1024 5 < sizes.length ∧ (formatFileSize 5).isSome = true) ∧
    (1024 ^ 4 ≤ 1024 ^ 4 ∧ sizes.length ≤ Nat.log 1024 (1024 ^ 4) ∧
      formatFileSize (1024 ^ 4) = none) :=
  ⟨⟨by norm_num, by norm_num,
    formatFileSize_unit_bounds.2.1 5 (by norm_num) (by norm_num)⟩,
   ⟨le_refl _,
    formatFileSize_unit_bounds.2.2 (1024 ^ 4) (le_refl _)⟩⟩

end OrganizeX
